import Mathlib

set_option maxHeartbeats 1000000

namespace BlenderCoD

/-!
Shallow embedding of the BlenderCoD repository core, and proofs about it.

Sections:
* LZ4 block codec (`src/PyCoD/_lz4.py`, the pure-Python fallback);
* vertex weight resolution (`src/export_xmodel.py`, `ExportMesh`);
* face winding (`src/export_xmodel.py`, `ExportMesh.to_xmodel_mesh`);
* material-name sanitization (`src/export_xmodel.py`);
* bone table construction on model export (`src/export_xmodel.py`, `save`);
* animation assembly on XAnim export (`src/export_xanim.py`, `save`);
* rest-pose derivation (`src/import_xanim.py`, `get_mat_rest`).

Python byte values are modelled as `Nat`, Python floats as `ℚ` (all the
arithmetic the claims exercise is exact), Python lists as `List`.
-/

/-! ### LZ4 block codec (src/PyCoD/_lz4.py) -/

/-- Failure conditions of the pure-Python `uncompress`.  Each `eof…` /
`notLiteralData` / `prematureEOF` / `zeroOffset` constructor corresponds to
one `raise CorruptError(...)` site in `_lz4.py`; `indexError` models the
uncaught Python `IndexError` raised by `dst[-offset]` when `offset` exceeds
the number of bytes decoded so far (a different exception class than
`CorruptError`). -/
inductive LZ4Error where
  | eofLiteralLen
  | eofLengthRead
  | notLiteralData
  | prematureEOF
  | zeroOffset
  | eofPendingMatch (sel : Nat)
  | indexError
  deriving DecidableEq, Repr

/-- Models the `while True` loop inside `get_length`: read one extension byte at a
time (EOF is a corruption error), add it to the running length, and stop at
the first byte that is not `0xff`. -/
def getLengthLoop : List Nat → Nat → Except LZ4Error (Nat × List Nat)
  | [], _ => .error .eofLengthRead
  | b :: rest, acc =>
      if b = 255 then getLengthLoop rest (acc + b) else .ok (acc + b, rest)

/-- Function `get_length(src, length)` from `_lz4.py`: a selector different from
`0x0f` is returned as-is (consuming nothing); the selector `0x0f` is extended
by reading additional length bytes. -/
def get_length (src : List Nat) (length : Nat) : Except LZ4Error (Nat × List Nat) :=
  if length ≠ 15 then .ok (length, src) else getLengthLoop src length

/-- Loop `for _ in xrange(match_len): dst.append(dst[-offset])` from `uncompress`.
Python raises `IndexError` when `offset > len(dst)` (the caller has already
ruled out `offset == 0`). -/
def matchCopy (dst : List Nat) (off : Nat) : Nat → Except LZ4Error (List Nat)
  | 0 => .ok dst
  | n + 1 =>
      if dst.length < off then .error .indexError
      else matchCopy (dst ++ [dst.getD (dst.length - off) 0]) off n

/-- Outcome of one iteration of the `while True` block loop in `uncompress`. -/
inductive LZ4Step where
  | done (dst : List Nat)
  | fail (e : LZ4Error)
  | next (src dst : List Nat)
  deriving DecidableEq, Repr

/-- One iteration of the `while True` loop of `uncompress`: read the token
byte, decode the literal length, copy the literal, detect normal end of
stream, read the 2-byte little-endian offset, decode the match length and
perform the overlapping match copy. -/
def uncompressStep (src dst : List Nat) : LZ4Step :=
  match src with
  | [] => .fail .eofLiteralLen
  | token :: rest =>
    match get_length rest ((token >>> 4) &&& 15) with
    | .error e => .fail e
    | .ok (litLen, rest1) =>
      if rest1.length < litLen then .fail .notLiteralData
      else
        match rest1.drop litLen with
        | [] =>
            if token &&& 15 ≠ 0 then .fail (.eofPendingMatch (token % 15))
            else .done (dst ++ rest1.take litLen)
        | [_] => .fail .prematureEOF
        | b0 :: b1 :: rest3 =>
          if b0 ||| (b1 <<< 8) = 0 then .fail .zeroOffset
          else
            match get_length rest3 (token &&& 15) with
            | .error e => .fail e
            | .ok (matchSel, rest4) =>
              match matchCopy (dst ++ rest1.take litLen) (b0 ||| (b1 <<< 8))
                  (matchSel + 4) with
              | .error e => .fail e
              | .ok dst2 => .next rest4 dst2

/-- Models the `while True` loop of `uncompress`, iterated block decoding.  The
loop terminates because every `next` step consumed at least the token byte
(the inline argument below re-traces the branches of `uncompressStep`). -/
def uncompressLoop (src dst : List Nat) : Except LZ4Error (List Nat) :=
  match h : uncompressStep src dst with
  | .done d => .ok d
  | .fail e => .error e
  | .next s d => uncompressLoop s d
termination_by src.length
decreasing_by
  have glen : ∀ (l : List Nat) (acc n : Nat) (rest : List Nat),
      getLengthLoop l acc = .ok (n, rest) → rest.length ≤ l.length := by
    intro l
    induction l with
    | nil => intro acc n rest hx; simp [getLengthLoop] at hx
    | cons b tl ih =>
        intro acc n rest hx
        by_cases hb : b = 255
        · simp [getLengthLoop, hb] at hx
          exact Nat.le_succ_of_le (ih _ _ _ hx)
        · simp [getLengthLoop, hb] at hx
          obtain ⟨-, h2⟩ := hx
          subst h2
          exact Nat.le_succ _
  have gl : ∀ (l : List Nat) (k n : Nat) (rest : List Nat),
      get_length l k = .ok (n, rest) → rest.length ≤ l.length := by
    intro l k n rest hx
    unfold get_length at hx
    split at hx
    · simp only [Except.ok.injEq, Prod.mk.injEq] at hx
      obtain ⟨-, h2⟩ := hx
      subst h2
      exact le_rfl
    · exact glen _ _ _ _ hx
  unfold uncompressStep at h
  split at h
  · exact absurd h (by simp)
  · rename_i token rest
    split at h
    · exact absurd h (by simp)
    · rename_i litLen rest1 hgl
      have h1 : rest1.length ≤ rest.length := gl _ _ _ _ hgl
      split at h
      · exact absurd h (by simp)
      · rename_i hlen
        split at h
        · split at h
          · exact absurd h (by simp)
          · exact absurd h (by simp)
        · exact absurd h (by simp)
        · rename_i b0 b1 rest3 hdrop
          have h3 : rest3.length + 2 ≤ rest1.length := by
            have hd := congrArg List.length hdrop
            simp only [List.length_drop, List.length_cons] at hd
            omega
          split at h
          · exact absurd h (by simp)
          · split at h
            · exact absurd h (by simp)
            · rename_i matchSel rest4 hgl2
              have h4 : rest4.length ≤ rest3.length := gl _ _ _ _ hgl2
              split at h
              · exact absurd h (by simp)
              · simp only [LZ4Step.next.injEq] at h
                obtain ⟨hs, -⟩ := h
                subst hs
                simp only [List.length_cons]
                omega

/-- Function `uncompress(src, offset=4)` from `_lz4.py`: skip `offset` prefix bytes
(the uncompressed-size prefix, when present), then decode blocks until the
stream ends. -/
def uncompress (src : List Nat) (offset : Nat := 4) : Except LZ4Error (List Nat) :=
  uncompressLoop (src.drop offset) []

/-- Function `compress(data)` from `_lz4.py`: an all-literal LZ4 block (match length
selector 0).  `(int)((length - 15) / 255)` is modelled as exact `Nat` floor
division. -/
def compress (data : List Nat) : List Nat :=
  if 15 < data.length then
    ((15 <<< 4 ||| 0) :: (List.replicate ((data.length - 15) / 255) 255 ++
      [(data.length - 15) % 255])) ++ data
  else if data.length = 15 then
    ((data.length <<< 4 ||| 0) :: [0]) ++ data
  else
    [data.length <<< 4 ||| 0] ++ data

/-! ### Vertex weight resolution (src/export_xmodel.py, ExportMesh) -/

/-- Stable descending insertion of one `(bone_index, weight)` pair: the
inserted element (which originates later in the list) passes elements of
strictly greater weight and stops before the first element of weight ≤ its
own. -/
def insertWeightDesc (x : Nat × ℚ) : List (Nat × ℚ) → List (Nat × ℚ)
  | [] => [x]
  | y :: ys => if x.2 < y.2 then y :: insertWeightDesc x ys else x :: y :: ys

/-- Models `v.sort(key=lambda x: -x[1])` from `fix_too_many_weights`: Python's sort
is stable, and a stable sort under a fixed comparator has a unique result,
here realized by stable insertion sort (descending by weight, ties keeping
original order). -/
def sortWeightsDesc : List (Nat × ℚ) → List (Nat × ℚ)
  | [] => []
  | x :: xs => insertWeightDesc x (sortWeightsDesc xs)

/-- The per-vertex body of `ExportMesh.fix_too_many_weights`: if a vertex has
more than 15 weights, sort descending by weight (stable), `del v[15:]`,
compute the kept total, and renormalize when the total is nonzero — when the
total is zero (falsy), assign `v[:15]` (the already-trimmed list itself). -/
def fixVertexWeights (v : List (Nat × ℚ)) : List (Nat × ℚ) :=
  if 15 < v.length then
    if (((sortWeightsDesc v).take 15).map Prod.snd).sum ≠ 0 then
      ((sortWeightsDesc v).take 15).map
        (fun bw => (bw.1, bw.2 / (((sortWeightsDesc v).take 15).map Prod.snd).sum))
    else ((sortWeightsDesc v).take 15).take 15
  else v

/-- Method `ExportMesh.fix_too_many_weights` over the whole per-vertex weight table:
rewrites each over-limit vertex in place and reports whether any vertex was
over the limit. -/
def fix_too_many_weights (weights : List (List (Nat × ℚ))) :
    List (List (Nat × ℚ)) × Bool :=
  (weights.map fixVertexWeights, weights.any (fun v => 15 < v.length))

/-- The per-vertex body of `ExportMesh.add_weights` (the case with vertex
groups present): keep the contributions whose group maps to a bone
(`group_map[g.group] is not None`) and whose weight is at least the
threshold; an empty result defaults to `[(0, 1.0)]`; then
`fix_too_many_weights` trims and renormalizes. -/
def resolveVertexWeights (group_map : List (Option Nat))
    (vert_groups : List (Nat × ℚ)) (weight_min_threshold : ℚ) :
    List (Nat × ℚ) :=
  fixVertexWeights
    (let ws := vert_groups.filterMap (fun g =>
      match group_map.getD g.1 none with
      | some bi =>
          if weight_min_threshold ≤ g.2 then some (bi, g.2) else none
      | none => none)
    if ws.isEmpty then [(0, 1)] else ws)

/-! ### Face construction and winding (src/export_xmodel.py, to_xmodel_mesh) -/

/-- One triangulated host polygon as `to_xmodel_mesh` reads it: its material
slot index and its loop indices (in the host's native winding order). -/
structure ExportPoly where
  material_index : Nat
  loop_indices : List Nat
  deriving DecidableEq, Repr

/-- Models `face.indices[1], face.indices[2] = face.indices[2], face.indices[1]`:
the post-construction swap of the second and third face vertex ("Fix winding
order"). -/
def swapWinding {β : Type} : List β → List β
  | i0 :: i1 :: i2 :: rest => i0 :: i2 :: i1 :: rest
  | l => l

/-- The polygon loop of `ExportMesh.to_xmodel_mesh`.  `mkVert` abstracts the
per-loop `XModel.FaceVertex(...)` assembly (vertex index, transformed
normal, color, flipped uv) — host data the claims do not constrain;
`materials` is the mesh-to-model material index mapping
(`self.materials`).  A polygon whose `material_index` is out of range is
skipped (`continue`, with a warning); otherwise `face.indices[i]` is filled
per loop in order and the winding swap is applied, and the face is appended
with `face.material_id = self.materials[polygon.material_index]`.
(The `XModel.Face`/`XModel.FaceVertex` containers live in the PyCoD package
outside `src/`; per the spec they are plain records of a material id and
three face vertices, modelled here as a pair.) -/
def to_xmodel_mesh_faces {β : Type} (mkVert : Nat → β) (materials : List Nat)
    (polys : List ExportPoly) : List (Nat × List β) :=
  polys.filterMap (fun p =>
    if materials.length ≤ p.material_index then none
    else some (materials.getD p.material_index 0,
      swapWinding (p.loop_indices.map mkVert)))

/-! ### Material name sanitization (src/export_xmodel.py) -/

/-- Characters matched by the class `[a-z0-9]`. -/
def isLowerAlnum (c : Char) : Bool :=
  (('a' ≤ c) && (c ≤ 'z')) || (('0' ≤ c) && (c ≤ '9'))

/-- Models `re.sub(r'[^a-z0-9]+', '_', s)`: each maximal run of characters outside
`[a-z0-9]` becomes a single underscore.  `inRun` records whether the
previous character belonged to such a run. -/
def subNonAlnum : List Char → Bool → List Char
  | [], _ => []
  | c :: cs, inRun =>
      if isLowerAlnum c then c :: subNonAlnum cs false
      else if inRun then subNonAlnum cs true
      else '_' :: subNonAlnum cs true

/-- Models `re.sub(r'_+', '_', s)`: each run of underscores becomes a single
underscore.  `prevUnd` records whether the previous character was an
underscore. -/
def subUnderscoreRuns : List Char → Bool → List Char
  | [], _ => []
  | c :: cs, prevUnd =>
      if c = '_' then
        if prevUnd then subUnderscoreRuns cs true
        else '_' :: subUnderscoreRuns cs true
      else c :: subUnderscoreRuns cs false

/-- Python `str.strip('_')`: drop leading and trailing underscores. -/
def stripUnderscores (l : List Char) : List Char :=
  ((l.dropWhile (fun c => c = '_')).reverse.dropWhile (fun c => c = '_')).reverse

/-- Function `sanitize_material_name(name)` from `src/export_xmodel.py`:
`name.lower()`, replace `[^a-z0-9]+` runs by `_`, collapse `_+` runs, then
strip leading/trailing underscores. -/
def sanitize_material_name (name : List Char) : List Char :=
  stripUnderscores
    (subUnderscoreRuns (subNonAlnum (name.map Char.toLower) false) false)

/-- No two consecutive underscores. -/
def noDoubleUnderscore (l : List Char) : Prop :=
  List.Chain' (fun a b => ¬(a = '_' ∧ b = '_')) l

/-! ### XAnim export assembly (src/export_xanim.py, save) -/

/-- Class `XAnim.PartInfo` (PyCoD package, outside `src/`): per the spec, a part is
just a bone name. -/
structure PartInfoL where
  name : String
  deriving DecidableEq, Repr

/-- Class `XAnim.FramePart` (PyCoD package, outside `src/`): per the spec, an
offset vector and a 3x3 matrix (stored as row tuples). -/
structure FramePartL where
  offset : ℚ × ℚ × ℚ
  matrix : List (List ℚ)
  deriving DecidableEq, Repr

/-- Constant `TAG_ALIGN_MATRIX` from `export_xanim.py`. -/
def TAG_ALIGN_MATRIX : List (List ℚ) := [[1, 0, 0], [0, 1, 0], [0, 0, 1]]

/-- Constant `TAG_ALIGN_OFFSET` from `export_xanim.py`. -/
def TAG_ALIGN_OFFSET : ℚ × ℚ × ℚ := (0, 0, 0)

/-- Class `XAnim.Frame` (PyCoD package, outside `src/`): a frame number and one
`FramePart` per part. -/
structure FrameL where
  frame : Int
  parts : List FramePartL
  deriving DecidableEq, Repr

/-- Class `XAnim.Anim` (PyCoD package, outside `src/`): version, framerate, part
table, frames, notes. -/
structure AnimL where
  version : Nat
  framerate : ℚ
  parts : List PartInfoL
  frames : List FrameL
  notes : List (Int × String)
  deriving DecidableEq, Repr

/-- The per-frame body of the `save` frame loop: one `FramePart` per pose
bone, in `pose_bones` order (`sample f b` abstracts reading
`bone.head * global_scale` and `bone.matrix.to_3x3().transposed()` from the
host after `frame_set(f)`), plus a trailing `TAG_ALIGN` part when
`write_tag_align` is set. -/
def buildFrame {β : Type} (sample : Int → β → FramePartL) (pose_bones : List β)
    (write_tag_align : Bool) (frame_num : Int) : FrameL :=
  { frame := frame_num
    parts := pose_bones.map (sample frame_num) ++
      (if write_tag_align then [⟨TAG_ALIGN_OFFSET, TAG_ALIGN_MATRIX⟩] else []) }

/-- The animation assembled by one iteration of the action loop in
`export_xanim.save`: version 3, the caller's framerate, one `PartInfo` per
pose bone (plus `TAG_ALIGN` when enabled), and one frame per number in
`range(int(frame_start), int(frame_end) + 1)` (notes are appended
afterwards from host markers, abstracted by `markers`). -/
def xanim_save_anim {β : Type} (nameOf : β → String)
    (sample : Int → β → FramePartL) (pose_bones : List β)
    (write_tag_align : Bool) (frame_start frame_end : Int) (framerate : ℚ)
    (markers : List (Int × String)) : AnimL :=
  { version := 3
    framerate := framerate
    parts := pose_bones.map (fun b => ⟨nameOf b⟩) ++
      (if write_tag_align then [⟨"TAG_ALIGN"⟩] else [])
    frames := (List.range (frame_end + 1 - frame_start).toNat).map
      (fun j : Nat =>
        buildFrame sample pose_bones write_tag_align (frame_start + (j : Int)))
    notes := markers }

/-! ### Model-export bone table (src/export_xmodel.py, save) -/

/-- Rational 3-vectors (host `Vector`, components exact). -/
abbrev Vec3 : Type := Fin 3 → ℚ

/-- Type of 3x3 rational matrices. -/
abbrev Mat3 : Type := Matrix (Fin 3) (Fin 3) ℚ

/-- Type of 4x4 rational matrices (host 4x4 transforms). -/
abbrev Mat4 : Type := Matrix (Fin 4) (Fin 4) ℚ

/-- Operation `.to_3x3()`: the upper-left 3x3 block of a 4x4 matrix. -/
def mat4ToMat3 (M : Mat4) : Mat3 := fun i j => M i.castSucc j.castSucc

/-- Product `Matrix @ Vector` for a 4x4 matrix and a 3D vector (mathutils promotes
the vector with `w = 1` and returns the 3D part): rotation block times the
vector, plus the translation column. -/
def affineApply (M : Mat4) (v : Vec3) : Vec3 :=
  fun i => (∑ j, mat4ToMat3 M i j * v j) + M i.castSucc 3

/-- Product `Vector * scalar`. -/
def vecScale (s : ℚ) (v : Vec3) : Vec3 := fun i => v i * s

/-- One armature bone as the export loop reads it: name, parent name (if
any), world bind matrix `matrix_local`, head position `head_local`. -/
structure ArmatureBone where
  name : String
  parent : Option String
  matrix_local : Mat4
  head_local : Vec3

/-- Class `XModel.Bone` (PyCoD package, outside `src/`): per the spec, a name, a
parent index, a cosmetic flag (set by `mark_cosmetic`), a world offset and a
3x3 row-major rotation matrix. -/
structure XModelBone where
  name : String
  parent : Int
  cosmetic : Bool
  offset : Vec3
  matrix : Mat3

/-- One iteration of the bone loop in `export_xmodel.save`
(`for bone_index, bone in enumerate(armature.data.bones)`):
parent index from `bone_table` (0 when the parent name is missing, −1 when
there is no parent); `mark_cosmetic` membership in the cosmetic-name table
(`tbl_cosmetics`, a fixed data table whose contents no claim constrains, so
it is a parameter here); and — the branch under test — bone 0 gets the
identity matrix and zero offset unconditionally, all later bones get
`(armature_matrix @ bone.matrix_local).to_3x3().transposed()` and
`(armature_matrix @ bone.head_local) * global_scale`. -/
def export_bone (tbl_cosmetics : List String) (bone_table : List String)
    (armature_matrix : Mat4) (global_scale : ℚ) (bone_index : Nat)
    (b : ArmatureBone) : XModelBone :=
  { name := b.name
    parent :=
      match b.parent with
      | none => -1
      | some pn =>
          if pn ∈ bone_table then (bone_table.indexOf pn : Int) else 0
    cosmetic := tbl_cosmetics.contains b.name
    offset :=
      if bone_index = 0 then (fun _ => 0)
      else vecScale global_scale (affineApply armature_matrix b.head_local)
    matrix :=
      if bone_index = 0 then 1
      else (mat4ToMat3 (armature_matrix * b.matrix_local)).transpose }

/-- The whole bone loop of `export_xmodel.save` (armature present):
`bone_table = [b.name for b in armature.data.bones]`, and bones are emitted
in enumeration order. -/
def export_bones (tbl_cosmetics : List String) (armature_matrix : Mat4)
    (global_scale : ℚ) (bones : List ArmatureBone) : List XModelBone :=
  bones.enum.map (fun ib =>
    export_bone tbl_cosmetics (bones.map ArmatureBone.name) armature_matrix
      global_scale ib.1 ib.2)

/-! ### Rest-pose derivation (src/import_xanim.py, get_mat_rest) -/

/-- Operation `.to_4x4()` of a 3x3 matrix: embed as the rotation block, zero
translation, bottom row `(0, 0, 0, 1)`. -/
def mat3ToMat4 (M : Mat3) : Mat4 := fun i j =>
  if hi : (i : Nat) < 3 then
    (if hj : (j : Nat) < 3 then M ⟨i, hi⟩ ⟨j, hj⟩ else 0)
  else (if (j : Nat) = 3 then 1 else 0)

/-- Assignment `mat.translation = v`: overwrite the translation column (rows 0–2 of
column 3). -/
def setTranslation (M : Mat4) (v : Vec3) : Mat4 := fun i j =>
  if h : (i : Nat) < 3 ∧ (j : Nat) = 3 then v ⟨i, h.1⟩ else M i j

/-- Accessor `mat.translation`: the translation column. -/
def translationOf (M : Mat4) : Vec3 := fun i => M i.castSucc 3

/-- Constructor `Matrix.Translation(v)`: the identity with translation `v`. -/
def matTranslation (v : Vec3) : Mat4 := setTranslation 1 v

/-- Length `v.length` of a column of a 3x3 matrix, with the square root abstracted
as `sqrtQ` (the host computes a float square root; no claim depends on its
values). -/
def colLength (sqrtQ : ℚ → ℚ) (M : Mat3) (j : Fin 3) : ℚ :=
  sqrtQ (∑ i, M i j * M i j)

/-- Matrix `Matrix.Diagonal([v.length for v in M.to_3x3().col]).to_4x4()`. -/
def diagColLengths4 (sqrtQ : ℚ → ℚ) (M : Mat4) : Mat4 :=
  mat3ToMat4 (Matrix.diagonal (colLength sqrtQ (mat4ToMat3 M)))

/-- Operation `M.normalized()` for a 4x4 matrix: each of the three basis columns
(first three components of columns 0–2) is divided by its 3D length; the
translation column and bottom row are unchanged.  (Blender's handling of a
zero-length column is not modelled; in `ℚ`, division by zero yields 0.) -/
def normalizedM4 (sqrtQ : ℚ → ℚ) (M : Mat4) : Mat4 := fun i j =>
  if h : (i : Nat) < 3 ∧ (j : Nat) < 3 then
    M i j / colLength sqrtQ (mat4ToMat3 M) ⟨j, h.2⟩
  else M i j

/-- Componentwise vector addition. -/
def vadd (u v : Vec3) : Vec3 := fun i => u i + v i

/-- The data `get_mat_rest` reads from `pose_bone` / `pose_bone.bone`:
whether the pose bone has a parent, the local bind matrix `matrix_local`,
the 3x3 `bone.matrix`, `bone.head`, `bone.parent.length` (only read when a
parent exists), and the three inheritance/storage flags.
(`bone.inherit_scale` is read by the code as a truthy value and modelled as
a Bool.) -/
structure PoseBoneInput where
  has_parent : Bool
  matrix_local : Mat4
  matrix : Mat3
  head : Vec3
  parent_length : ℚ
  use_inherit_rotation : Bool
  inherit_scale : Bool
  use_local_location : Bool

/-- Matrix `mat_offs`: `bone.matrix.to_4x4()` with translation
`bone.head + Vector((0, bone.parent.length, 0))`. -/
def boneOffsetMatrix (pb : PoseBoneInput) : Mat4 :=
  setTranslation (mat3ToMat4 pb.matrix) (vadd pb.head ![0, pb.parent_length, 0])

/-- Function `get_mat_rest(pose_bone, parent_pose_matrix, parent_rest_matrix)` from
`src/import_xanim.py`: a bone without a parent returns
`(matrix_local, matrix_local)`; otherwise the rotation/scale matrix branches
on the two inheritance flags, and the location matrix branches on
`use_local_location` (translation formula when it is NOT set) and on the
inheritance flags.  `sqrtQ` abstracts the float square root used by column
lengths and normalization. -/
def get_mat_rest (sqrtQ : ℚ → ℚ) (pb : PoseBoneInput)
    (parent_pose_matrix parent_rest_matrix : Mat4) : Mat4 × Mat4 :=
  if !pb.has_parent then (pb.matrix_local, pb.matrix_local)
  else
    let mat_offs := boneOffsetMatrix pb
    let rot_off := !pb.use_inherit_rotation
    let scl_off := !pb.inherit_scale
    let mat_rotscale :=
      if rot_off && scl_off then parent_rest_matrix * mat_offs
      else if rot_off then
        diagColLengths4 sqrtQ parent_pose_matrix * parent_rest_matrix * mat_offs
      else if scl_off then normalizedM4 sqrtQ parent_pose_matrix * mat_offs
      else parent_pose_matrix * mat_offs
    let mat_loc :=
      if !pb.use_local_location then
        matTranslation (affineApply parent_pose_matrix (translationOf mat_offs)) *
          mat3ToMat4 (mat4ToMat3 parent_pose_matrix)
      else if rot_off || scl_off then parent_pose_matrix * mat_offs
      else mat_rotscale
    (mat_rotscale, mat_loc)

/-- The rest-location formula exactly as the claim words it ("when the bone
uses local-location storage, `rest_location = translate(parent_pose_matrix *
offset.translation) * rotation_part(parent_pose_matrix)`; otherwise
`rest_location = parent_pose_matrix * offset`, except that it equals
`rest_rotation` directly when either inheritance flag is off"), for
comparison against `get_mat_rest`. -/
def claimed_rest_location (pb : PoseBoneInput)
    (parent_pose_matrix rest_rotation : Mat4) : Mat4 :=
  if pb.use_local_location then
    matTranslation (affineApply parent_pose_matrix
        (translationOf (boneOffsetMatrix pb))) *
      mat3ToMat4 (mat4ToMat3 parent_pose_matrix)
  else if !pb.use_inherit_rotation || !pb.inherit_scale then rest_rotation
  else parent_pose_matrix * boneOffsetMatrix pb

/-! ### Theorems -/

theorem uncompressLoop_done {src dst d : List Nat}
    (h : uncompressStep src dst = .done d) : uncompressLoop src dst = .ok d := by
  unfold uncompressLoop
  split
  · rename_i d' heq
    rw [h] at heq
    cases heq
    rfl
  · rename_i e heq
    rw [h] at heq
    cases heq
  · rename_i s' d' heq
    rw [h] at heq
    cases heq

theorem uncompressLoop_fail {src dst : List Nat} {e : LZ4Error}
    (h : uncompressStep src dst = .fail e) : uncompressLoop src dst = .error e := by
  unfold uncompressLoop
  split
  · rename_i d' heq
    rw [h] at heq
    cases heq
  · rename_i e' heq
    rw [h] at heq
    cases heq
    rfl
  · rename_i s' d' heq
    rw [h] at heq
    cases heq

theorem uncompressLoop_next {src dst s d : List Nat}
    (h : uncompressStep src dst = .next s d) :
    uncompressLoop src dst = uncompressLoop s d := by
  rw [uncompressLoop]
  split
  · rename_i d' heq
    rw [h] at heq
    cases heq
  · rename_i e' heq
    rw [h] at heq
    cases heq
  · rename_i s' d' heq
    rw [h] at heq
    cases heq
    rfl

theorem getLengthLoop_replicate (k : Nat) {r : Nat} (hr : r ≠ 255)
    (rest : List Nat) (acc : Nat) :
    getLengthLoop (List.replicate k 255 ++ r :: rest) acc =
      .ok (acc + (255 * k + r), rest) := by
  induction k generalizing acc with
  | zero => simp [getLengthLoop, hr]
  | succ k ih =>
      have hstep : getLengthLoop (List.replicate (k + 1) 255 ++ r :: rest) acc
          = getLengthLoop (List.replicate k 255 ++ r :: rest) (acc + 255) := by
        simp [List.replicate_succ, getLengthLoop]
      rw [hstep, ih]
      congr 2
      ring

theorem get_length_fifteen (src : List Nat) :
    get_length src 15 = getLengthLoop src 15 := by
  simp [get_length]

theorem get_length_ne {src : List Nat} {l : Nat} (h : l ≠ 15) :
    get_length src l = .ok (l, src) := by
  simp [get_length, h]

/-- Running `uncompressStep` on the output of `compress` decodes the whole literal
block and terminates the loop with exactly the original data. -/
theorem uncompressStep_compress (b : List Nat) :
    uncompressStep (compress b) [] = .done b := by
  have h240a : (((240 : Nat) >>> 4) &&& 15) = 15 := by decide
  have h240b : ((240 : Nat) &&& 15) = 0 := by decide
  unfold compress
  by_cases hgt : 15 < b.length
  · simp only [if_pos hgt]
    have hr : (b.length - 15) % 255 ≠ 255 := by
      have := Nat.mod_lt (b.length - 15) (show (0:ℕ) < 255 by norm_num)
      omega
    have hsum : 15 + (255 * ((b.length - 15) / 255) + (b.length - 15) % 255)
        = b.length := by
      have := Nat.div_add_mod (b.length - 15) 255
      omega
    rw [show (15 : Nat) <<< 4 ||| 0 = 240 from by decide]
    simp only [List.cons_append, List.append_assoc, List.singleton_append]
    simp only [uncompressStep, h240a, h240b, get_length_fifteen]
    rw [getLengthLoop_replicate _ hr, hsum]
    simp [List.drop_length, List.take_length]
  · rw [if_neg hgt]
    by_cases h15 : b.length = 15
    · rw [if_pos h15, h15]
      rw [show (15 : Nat) <<< 4 ||| 0 = 240 from by decide]
      simp only [List.cons_append, List.singleton_append, List.nil_append]
      simp only [uncompressStep, h240a, h240b, get_length_fifteen]
      have hgl : getLengthLoop (0 :: b) 15 = .ok (15, b) := by
        simp [getLengthLoop]
      rw [hgl, ← h15]
      simp [List.drop_length, List.take_length]
    · rw [if_neg h15]
      have hlt : b.length < 15 := by omega
      have hA : ∀ n < 15, ((n <<< 4 ||| 0) >>> 4) &&& 15 = n := by decide
      have hB : ∀ n < 15, (n <<< 4 ||| 0) &&& 15 = 0 := by decide
      simp only [List.singleton_append]
      simp only [uncompressStep, hA _ hlt, hB _ hlt,
        get_length_ne (show b.length ≠ 15 from h15)]
      simp [List.drop_length, List.take_length]

/-- C1: the pure-Python LZ4 round-trip.  For every byte sequence `b`,
`uncompress(compress(b), 0) == b`: `compress` emits no 4-byte
uncompressed-size prefix, so the decompressor's skip-prefix parameter is 0.
The proof covers all lengths, in particular 0, 15 and the extended
literal-length encoding used when `len(b) > 15`. -/
theorem uncompress_compress_roundtrip (b : List Nat) :
    uncompress (compress b) 0 = .ok b := by
  unfold uncompress
  rw [List.drop_zero]
  exact uncompressLoop_done (uncompressStep_compress b)

theorem getLengthLoop_all255 :
    ∀ (k : Nat) (acc : Nat),
      getLengthLoop (List.replicate k 255) acc = .error .eofLengthRead := by
  intro k
  induction k with
  | zero => intro acc; simp [getLengthLoop]
  | succ k ih => intro acc; simp [List.replicate_succ, getLengthLoop, ih]

/-- C2 counterexample: two inputs on which the claimed failure
characterization is wrong.  `[0, 1, 0]` has a complete token, a complete
literal (empty), a complete nonzero offset field and a zero pending match
selector — none of the five claimed `CorruptData` conditions — yet decoding
does not return normally: the match copy references back past the start of
the (empty) output and raises Python `IndexError`, an exception that is not
`CorruptError`.  The empty input also fails (missing token byte,
`CorruptError("EOF at reading literal-len")`) although it matches none of
the five claimed conditions either. -/
theorem uncompress_error_claim_counterexample :
    uncompress [0, 1, 0] 0 = .error .indexError ∧
      uncompress [] 0 = .error .eofLiteralLen := by
  constructor
  · have hstep : uncompressStep [0, 1, 0] [] = .fail .indexError := by decide
    unfold uncompress
    rw [List.drop_zero]
    exact uncompressLoop_fail hstep
  · have hstep : uncompressStep [] [] = .fail .eofLiteralLen := by decide
    unfold uncompress
    rw [List.drop_zero]
    exact uncompressLoop_fail hstep

/-- C2 amended: the decoder's failure conditions, as the code implements
them.  Each of the five conditions listed by the claim does produce the
corresponding `CorruptError`; in addition a missing token byte at a block
boundary (including the empty input, and any stream that continues past a
match copy and then ends) produces `CorruptError`, and a back-reference
offset that exceeds the number of bytes decoded so far produces an
`IndexError` crash rather than a `CorruptError`. -/
theorem uncompress_error_conditions :
    (uncompress [] 0 = .error .eofLiteralLen) ∧
    (∀ k : Nat, uncompress (240 :: List.replicate k 255) 0 =
      .error .eofLengthRead) ∧
    (∀ (n : Nat) (rest : List Nat), n < 15 → rest.length < n →
      uncompress ((n <<< 4) :: rest) 0 = .error .notLiteralData) ∧
    (∀ (n : Nat) (lit : List Nat) (x : Nat), n < 15 → lit.length = n →
      uncompress ((n <<< 4) :: (lit ++ [x])) 0 = .error .prematureEOF) ∧
    (∀ (n : Nat) (lit rest : List Nat), n < 15 → lit.length = n →
      uncompress ((n <<< 4) :: (lit ++ 0 :: 0 :: rest)) 0 =
        .error .zeroOffset) ∧
    (∀ (n m : Nat) (lit : List Nat), n < 15 → m < 16 → m ≠ 0 → lit.length = n →
      uncompress (((n <<< 4) ||| m) :: lit) 0 =
        .error (.eofPendingMatch (((n <<< 4) ||| m) % 15))) ∧
    (∀ rest : List Nat, uncompress (0 :: 1 :: 0 :: rest) 0 =
      .error .indexError) := by
  have hA : ∀ n < 15, ((n <<< 4) >>> 4) &&& 15 = n := by decide
  have hB : ∀ n < 15, (n <<< 4) &&& 15 = 0 := by decide
  have hC : ∀ n < 15, ∀ m < 16, (((n <<< 4) ||| m) >>> 4) &&& 15 = n := by decide
  have hD : ∀ n < 15, ∀ m < 16, ((n <<< 4) ||| m) &&& 15 = m := by decide
  refine ⟨?_, ?_, ?_, ?_, ?_, ?_, ?_⟩
  · have hstep : uncompressStep [] [] = .fail .eofLiteralLen := by decide
    unfold uncompress
    rw [List.drop_zero]
    exact uncompressLoop_fail hstep
  · intro k
    unfold uncompress
    rw [List.drop_zero]
    refine uncompressLoop_fail ?_
    simp only [uncompressStep, show ((240 : Nat) >>> 4) &&& 15 = 15 from by decide,
      get_length_fifteen, getLengthLoop_all255]
  · intro n rest hn hrest
    unfold uncompress
    rw [List.drop_zero]
    refine uncompressLoop_fail ?_
    simp only [uncompressStep, hA n hn, get_length_ne (show n ≠ 15 by omega)]
    simp [hrest]
  · intro n lit x hn hlit
    unfold uncompress
    rw [List.drop_zero]
    refine uncompressLoop_fail ?_
    simp only [uncompressStep, hA n hn, get_length_ne (show n ≠ 15 by omega)]
    have hd : (lit ++ [x]).drop n = [x] := by
      rw [← hlit]
      exact List.drop_left lit [x]
    have hl : ¬ ((lit ++ [x]).length < n) := by
      simp [List.length_append, hlit]
    simp [hl, hd]
    omega
  · intro n lit rest hn hlit
    unfold uncompress
    rw [List.drop_zero]
    refine uncompressLoop_fail ?_
    simp only [uncompressStep, hA n hn, get_length_ne (show n ≠ 15 by omega)]
    have hd : (lit ++ 0 :: 0 :: rest).drop n = 0 :: 0 :: rest := by
      rw [← hlit]
      exact List.drop_left lit _
    have hl : ¬ ((lit ++ 0 :: 0 :: rest).length < n) := by
      simp [List.length_append, hlit]
    simp [hl, hd]
    omega
  · intro n m lit hn hm hm0 hlit
    unfold uncompress
    rw [List.drop_zero]
    refine uncompressLoop_fail ?_
    simp only [uncompressStep, hC n hn m hm, hD n hn m hm,
      get_length_ne (show n ≠ 15 by omega)]
    have hd : lit.drop n = [] := by
      rw [← hlit]
      exact List.drop_length lit
    have hl : ¬ (lit.length < n) := by omega
    simp [hl, hd, hm0]
  · intro rest
    unfold uncompress
    rw [List.drop_zero]
    refine uncompressLoop_fail ?_
    simp only [uncompressStep, show ((0 : Nat) >>> 4) &&& 15 = 0 from by decide,
      show (0 : Nat) &&& 15 = 0 from by decide,
      get_length_ne (show (0 : Nat) ≠ 15 by decide)]
    simp [matchCopy]

/-- C2 amended, witness: concrete instances of each error family. -/
theorem uncompress_error_conditions_witness :
    uncompress (240 :: List.replicate 1 255) 0 = .error .eofLengthRead ∧
      uncompress [2 <<< 4, 9] 0 = .error .notLiteralData ∧
      uncompress [1 <<< 4, 9, 7] 0 = .error .prematureEOF ∧
      uncompress [1 <<< 4, 9, 0, 0] 0 = .error .zeroOffset ∧
      uncompress [(1 <<< 4) ||| 3, 9] 0 =
        .error (.eofPendingMatch (((1 <<< 4) ||| 3) % 15)) ∧
      uncompress [0, 1, 0] 0 = .error .indexError := by
  refine ⟨?_, ?_, ?_, ?_, ?_, ?_⟩
  · exact uncompress_error_conditions.2.1 1
  · exact uncompress_error_conditions.2.2.1 2 [9] (by decide) (by decide)
  · exact uncompress_error_conditions.2.2.2.1 1 [9] 7 (by decide) (by decide)
  · exact uncompress_error_conditions.2.2.2.2.1 1 [9] [] (by decide) (by decide)
  · exact uncompress_error_conditions.2.2.2.2.2.1 1 3 [9] (by decide) (by decide)
      (by decide) (by decide)
  · exact uncompress_error_conditions.2.2.2.2.2.2 []

theorem insertWeightDesc_perm (x : Nat × ℚ) (l : List (Nat × ℚ)) :
    (insertWeightDesc x l).Perm (x :: l) := by
  induction l with
  | nil => simp [insertWeightDesc]
  | cons y ys ih =>
      unfold insertWeightDesc
      split
      · exact (ih.cons y).trans (List.Perm.swap x y ys)
      · exact List.Perm.refl _

theorem sortWeightsDesc_perm (v : List (Nat × ℚ)) :
    (sortWeightsDesc v).Perm v := by
  induction v with
  | nil => simp [sortWeightsDesc]
  | cons x xs ih =>
      exact (insertWeightDesc_perm x (sortWeightsDesc xs)).trans (ih.cons x)

theorem sortWeightsDesc_length (v : List (Nat × ℚ)) :
    (sortWeightsDesc v).length = v.length :=
  (sortWeightsDesc_perm v).length_eq

theorem sum_map_div (l : List ℚ) (c : ℚ) :
    (l.map (fun w => w / c)).sum = l.sum / c := by
  induction l with
  | nil => simp
  | cons w ws ih => simp [ih, add_div]

theorem sortWeightsDesc_const (b : Nat) (w : ℚ) :
    ∀ n, sortWeightsDesc (List.replicate n (b, w)) = List.replicate n (b, w) := by
  intro n
  induction n with
  | zero => simp [sortWeightsDesc]
  | succ n ih =>
      rw [List.replicate_succ, sortWeightsDesc, ih]
      cases n with
      | zero => simp [insertWeightDesc]
      | succ m =>
          rw [List.replicate_succ]
          simp [insertWeightDesc]

/-- C3 counterexample: 16 contributions all of weight 0 (so `k > 15` and all
weights non-negative).  The kept top-15 sum is zero, and the code leaves the
trimmed weights unchanged — all zero, summing to 0, not the claimed uniform
`1/15` each (and hence not summing to 1.0 within 1e-5). -/
theorem fixVertexWeights_zero_sum_counterexample :
    fixVertexWeights (List.replicate 16 ((0 : Nat), (0 : ℚ)))
        = List.replicate 15 ((0 : Nat), (0 : ℚ))
      ∧ fixVertexWeights (List.replicate 16 ((0 : Nat), (0 : ℚ)))
        ≠ List.replicate 15 ((0 : Nat), (1 / 15 : ℚ))
      ∧ ¬ |((fixVertexWeights (List.replicate 16 ((0 : Nat), (0 : ℚ)))).map
            Prod.snd).sum - 1| ≤ 1 / 100000 := by
  have hfix : fixVertexWeights (List.replicate 16 ((0 : Nat), (0 : ℚ)))
      = List.replicate 15 ((0 : Nat), (0 : ℚ)) := by
    unfold fixVertexWeights
    rw [sortWeightsDesc_const]
    simp [List.take_replicate, List.map_replicate, List.sum_replicate]
  refine ⟨hfix, ?_, ?_⟩
  · rw [hfix]
    intro h
    have h0 := congrArg (fun l => l[0]?) h
    simp [List.getElem?_replicate] at h0
    have h1 := congrArg Prod.snd h0
    simp at h1
  · rw [hfix]
    simp [List.map_replicate, List.sum_replicate]
    norm_num

/-- C3 amended: for a vertex with more than 15 non-negative weight
contributions, the resolved list has length exactly 15 and all weights
non-negative; when the kept top-15 weights have nonzero sum they are
renormalized to sum exactly to 1; when their sum is zero the trimmed list is
returned unchanged (no uniform-1/15 fallback). -/
theorem fixVertexWeights_overflow (v : List (Nat × ℚ))
    (hlen : 15 < v.length) (hnn : ∀ p ∈ v, 0 ≤ p.2) :
    (fixVertexWeights v).length = 15
      ∧ (∀ p ∈ fixVertexWeights v, 0 ≤ p.2)
      ∧ ((((sortWeightsDesc v).take 15).map Prod.snd).sum ≠ 0 →
          ((fixVertexWeights v).map Prod.snd).sum = 1)
      ∧ ((((sortWeightsDesc v).take 15).map Prod.snd).sum = 0 →
          fixVertexWeights v = (sortWeightsDesc v).take 15) := by
  have hsortnn : ∀ p ∈ (sortWeightsDesc v).take 15, 0 ≤ p.2 := by
    intro p hp
    exact hnn p ((sortWeightsDesc_perm v).mem_iff.mp (List.mem_of_mem_take hp))
  have hkeptlen : ((sortWeightsDesc v).take 15).length = 15 := by
    rw [List.length_take, sortWeightsDesc_length]
    omega
  have htotnn : 0 ≤ (((sortWeightsDesc v).take 15).map Prod.snd).sum := by
    apply List.sum_nonneg
    intro w hw
    obtain ⟨p, hp, rfl⟩ := List.mem_map.mp hw
    exact hsortnn p hp
  unfold fixVertexWeights
  rw [if_pos hlen]
  by_cases htot : (((sortWeightsDesc v).take 15).map Prod.snd).sum = 0
  · rw [if_neg (by simpa using htot)]
    refine ⟨?_, ?_, ?_, ?_⟩
    · rw [List.take_take]
      norm_num
      simpa using hkeptlen
    · intro p hp
      rw [List.take_take] at hp
      norm_num at hp
      exact hsortnn p hp
    · intro h
      exact absurd htot h
    · intro _
      rw [List.take_take]
      norm_num
  · rw [if_pos (by simpa using htot)]
    refine ⟨?_, ?_, ?_, ?_⟩
    · rw [List.length_map, hkeptlen]
    · intro p hp
      obtain ⟨q, hq, rfl⟩ := List.mem_map.mp hp
      exact div_nonneg (hsortnn q hq) htotnn
    · intro _
      have hmm : (((sortWeightsDesc v).take 15).map
          (fun bw =>
            (bw.1, bw.2 / (((sortWeightsDesc v).take 15).map Prod.snd).sum))).map
            Prod.snd =
          (((sortWeightsDesc v).take 15).map Prod.snd).map
            (fun w => w / (((sortWeightsDesc v).take 15).map Prod.snd).sum) := by
        rw [List.map_map, List.map_map]
        rfl
      rw [hmm, sum_map_div, div_self htot]
    · intro h
      exact absurd h htot

/-- C3 amended, witness: 16 equal contributions of weight 1/16; the resolved
list keeps 15 of them and renormalizes each to 1/15. -/
theorem fixVertexWeights_overflow_witness :
    (fixVertexWeights (List.replicate 16 ((0 : Nat), (1 / 16 : ℚ)))).length = 15
      ∧ ((fixVertexWeights (List.replicate 16 ((0 : Nat), (1 / 16 : ℚ)))).map
          Prod.snd).sum = 1 := by
  have h := fixVertexWeights_overflow (List.replicate 16 ((0 : Nat), (1 / 16 : ℚ)))
    (by simp) (by
      intro p hp
      rw [List.eq_of_mem_replicate hp]
      norm_num)
  refine ⟨h.1, h.2.2.1 ?_⟩
  rw [sortWeightsDesc_const]
  simp [List.take_replicate, List.map_replicate, List.sum_replicate]
  norm_num

/-- C4 counterexample: the weight list `[(0, 0.5), (1, 0.3), (2, 0.3)]` has
only 3 contributions, so `fix_too_many_weights` leaves it untouched: no
renormalization happens, the sum stays 1.1, and the claimed proportional
result `[(0, 5/11), (1, 3/11), (2, 3/11)]` is not produced. -/
theorem fixVertexWeights_three_counterexample :
    fixVertexWeights [(0, 1 / 2), (1, 3 / 10), (2, 3 / 10)]
        = [(0, 1 / 2), (1, 3 / 10), (2, 3 / 10)]
      ∧ ((fixVertexWeights [(0, 1 / 2), (1, 3 / 10), (2, 3 / 10)]).map
          Prod.snd).sum = 11 / 10
      ∧ fixVertexWeights [(0, 1 / 2), (1, 3 / 10), (2, 3 / 10)]
        ≠ [(0, 5 / 11), (1, 3 / 11), (2, 3 / 11)] := by
  have hfix : fixVertexWeights [((0 : Nat), (1 / 2 : ℚ)), (1, 3 / 10), (2, 3 / 10)]
      = [(0, 1 / 2), (1, 3 / 10), (2, 3 / 10)] := by
    unfold fixVertexWeights
    norm_num
  refine ⟨hfix, ?_, ?_⟩
  · rw [hfix]
    norm_num
  · rw [hfix]
    intro h
    have h0 := congrArg (fun l => l[0]?) h
    simp at h0
    norm_num at h0

/-- C4 amended: weight resolution never renormalizes a list of at most 15
contributions — `fix_too_many_weights` only rewrites vertices with more than
15 weights, so the scenario list (3 contributions summing to 1.1) is
returned unchanged. -/
theorem fixVertexWeights_at_most_fifteen (v : List (Nat × ℚ))
    (h : v.length ≤ 15) : fixVertexWeights v = v := by
  unfold fixVertexWeights
  rw [if_neg (by omega)]

/-- C4 amended, witness: the scenario list itself. -/
theorem fixVertexWeights_at_most_fifteen_witness :
    fixVertexWeights [(0, 1 / 2), (1, 3 / 10), (2, 3 / 10)]
      = [(0, 1 / 2), (1, 3 / 10), (2, 3 / 10)] :=
  fixVertexWeights_at_most_fifteen [(0, 1 / 2), (1, 3 / 10), (2, 3 / 10)]
    (by decide)

/-- C5: for every input triangle with host-order face-vertex sequence
`(A, B, C)` (and a valid material index), the face stored in the exported
mesh has face-vertex order `(A, C, B)`: the first vertex is unchanged and
the second and third are swapped at construction. -/
theorem face_winding_swap {β : Type} (mkVert : Nat → β) (materials : List Nat)
    (mi A B C : Nat) (hmi : mi < materials.length) :
    to_xmodel_mesh_faces mkVert materials [⟨mi, [A, B, C]⟩]
      = [(materials.getD mi 0, [mkVert A, mkVert C, mkVert B])] := by
  unfold to_xmodel_mesh_faces
  simp [List.filterMap, swapWinding, Nat.not_le.mpr hmi]

/-- C5 witness: a concrete triangle through the face loop. -/
theorem face_winding_swap_witness :
    to_xmodel_mesh_faces (fun i => i + 100) [7] [⟨0, [1, 2, 3]⟩]
      = [(7, [101, 103, 102])] := by
  have h := face_winding_swap (fun i => i + 100) [7] 0 1 2 3 (by decide)
  simpa using h

/-- C9 counterexample: the sanitized name can be empty, so it does not always
match `[a-z0-9_]+` (which requires at least one character): an all-punctuation
input collapses to a single underscore which is then stripped away, and the
empty input stays empty. -/
theorem sanitize_material_name_counterexample :
    sanitize_material_name ['!'] = [] ∧ sanitize_material_name [] = [] := by
  constructor
  · simp [sanitize_material_name, subNonAlnum, subUnderscoreRuns,
      stripUnderscores, isLowerAlnum]
  · simp [sanitize_material_name, subNonAlnum, subUnderscoreRuns,
      stripUnderscores]

theorem subNonAlnum_chars :
    ∀ (l : List Char) (b : Bool) (c : Char), c ∈ subNonAlnum l b →
      isLowerAlnum c = true ∨ c = '_' := by
  intro l
  induction l with
  | nil => intro b c hc; simp [subNonAlnum] at hc
  | cons x xs ih =>
      intro b c hc
      unfold subNonAlnum at hc
      by_cases hx : isLowerAlnum x
      · rw [if_pos hx] at hc
        rcases List.mem_cons.mp hc with h | h
        · exact Or.inl (h ▸ hx)
        · exact ih false c h
      · rw [if_neg hx] at hc
        by_cases hb : b
        · rw [if_pos hb] at hc
          exact ih true c hc
        · rw [if_neg hb] at hc
          rcases List.mem_cons.mp hc with h | h
          · exact Or.inr h
          · exact ih true c h

theorem subUnderscoreRuns_chars :
    ∀ (l : List Char) (b : Bool) (c : Char), c ∈ subUnderscoreRuns l b →
      c ∈ l ∨ c = '_' := by
  intro l
  induction l with
  | nil => intro b c hc; simp [subUnderscoreRuns] at hc
  | cons x xs ih =>
      intro b c hc
      unfold subUnderscoreRuns at hc
      by_cases hx : x = '_'
      · rw [if_pos hx] at hc
        by_cases hb : b
        · rw [if_pos hb] at hc
          rcases ih true c hc with h | h
          · exact Or.inl (List.mem_cons_of_mem x h)
          · exact Or.inr h
        · rw [if_neg hb] at hc
          rcases List.mem_cons.mp hc with h | h
          · exact Or.inr h
          · rcases ih true c h with h2 | h2
            · exact Or.inl (List.mem_cons_of_mem x h2)
            · exact Or.inr h2
      · rw [if_neg hx] at hc
        rcases List.mem_cons.mp hc with h | h
        · exact Or.inl (h ▸ List.mem_cons_self x xs)
        · rcases ih false c h with h2 | h2
          · exact Or.inl (List.mem_cons_of_mem x h2)
          · exact Or.inr h2

theorem stripUnderscores_subset {l : List Char} {c : Char}
    (hc : c ∈ stripUnderscores l) : c ∈ l := by
  unfold stripUnderscores at hc
  rw [List.mem_reverse] at hc
  have h1 := (List.dropWhile_sublist (l := (l.dropWhile (fun c => c = '_')).reverse)
    (p := fun c => c = '_')).mem hc
  rw [List.mem_reverse] at h1
  exact (List.dropWhile_sublist (l := l) (p := fun c => c = '_')).mem h1

theorem subUnderscoreRuns_noDouble :
    ∀ (l : List Char) (b : Bool),
      noDoubleUnderscore (subUnderscoreRuns l b)
        ∧ (b = true → (subUnderscoreRuns l b).head? ≠ some '_') := by
  intro l
  induction l with
  | nil =>
      intro b
      constructor
      · simp [subUnderscoreRuns, noDoubleUnderscore]
      · intro _
        simp [subUnderscoreRuns]
  | cons x xs ih =>
      intro b
      unfold subUnderscoreRuns
      by_cases hx : x = '_'
      · rw [if_pos hx]
        by_cases hb : b
        · rw [if_pos hb]
          exact ⟨(ih true).1, fun _ => (ih true).2 rfl⟩
        · rw [if_neg hb]
          constructor
          · unfold noDoubleUnderscore
            rw [List.chain'_cons']
            constructor
            · intro y hy
              intro hcontra
              exact (ih true).2 rfl (by
                rw [hy]
                exact congrArg some hcontra.2.symm ▸ rfl)
            · exact (ih true).1
          · intro hb2
            exact absurd hb2 hb
      · rw [if_neg hx]
        constructor
        · unfold noDoubleUnderscore
          rw [List.chain'_cons']
          constructor
          · intro y hy hcontra
            exact hx hcontra.1
          · exact (ih false).1
        · intro _
          simp only [List.head?_cons]
          intro hcontra
          exact hx (by injection hcontra)

theorem noDouble_stripUnderscores {l : List Char} (h : noDoubleUnderscore l) :
    noDoubleUnderscore (stripUnderscores l) := by
  unfold noDoubleUnderscore stripUnderscores
  have h1 : List.Chain' (fun a b => ¬(a = '_' ∧ b = '_'))
      (l.dropWhile (fun c => c = '_')) :=
    h.suffix (List.dropWhile_suffix _)
  have h2 : List.Chain' (fun a b => ¬(b = '_' ∧ a = '_'))
      (l.dropWhile (fun c => c = '_')).reverse := by
    rw [List.chain'_reverse]
    exact h1.imp (fun a b hab => hab)
  have h3 : List.Chain' (fun a b => ¬(b = '_' ∧ a = '_'))
      ((l.dropWhile (fun c => c = '_')).reverse.dropWhile (fun c => c = '_')) :=
    h2.suffix (List.dropWhile_suffix _)
  rw [List.chain'_reverse]
  exact h3.imp (fun a b hab => hab)

/-- C9 amended: for every input string the sanitized material name consists
only of characters in `[a-z0-9_]` with no two consecutive underscores — but
it may be empty (`[a-z0-9_]*`, not `[a-z0-9_]+`). -/
theorem sanitize_material_name_charset (name : List Char) :
    (∀ c ∈ sanitize_material_name name, isLowerAlnum c = true ∨ c = '_')
      ∧ noDoubleUnderscore (sanitize_material_name name) := by
  constructor
  · intro c hc
    have h1 := stripUnderscores_subset hc
    rcases subUnderscoreRuns_chars _ false c h1 with h2 | h2
    · exact subNonAlnum_chars _ false c h2
    · exact Or.inr h2
  · exact noDouble_stripUnderscores (subUnderscoreRuns_noDouble _ false).1

/-- C9 amended, witness: a concrete sanitized name. -/
theorem sanitize_material_name_charset_witness :
    noDoubleUnderscore (sanitize_material_name ['A', '!', '!', 'b'])
      ∧ sanitize_material_name ['A', '!', '!', 'b'] = ['a', '_', 'b'] := by
  refine ⟨(sanitize_material_name_charset ['A', '!', '!', 'b']).2, ?_⟩
  simp [sanitize_material_name, subNonAlnum, subUnderscoreRuns,
    stripUnderscores, isLowerAlnum]

/-- C8: alignment invariant of the XAnim export path.  Every produced frame
has exactly `len(anim.parts)` parts; part `i` of every frame is the sample
of pose bone `i` (the bone whose name is part `i` of the part table); when
`write_tag_align` is set both sequences carry one trailing `TAG_ALIGN`
entry at the same index; and frame numbers strictly increase across
`anim.frames`. -/
theorem xanim_frames_aligned {β : Type} (nameOf : β → String)
    (sample : Int → β → FramePartL) (pose_bones : List β)
    (write_tag_align : Bool) (frame_start frame_end : Int) (framerate : ℚ)
    (markers : List (Int × String)) :
    (∀ f ∈ (xanim_save_anim nameOf sample pose_bones write_tag_align
        frame_start frame_end framerate markers).frames,
      f.parts.length = (xanim_save_anim nameOf sample pose_bones
        write_tag_align frame_start frame_end framerate markers).parts.length)
    ∧ (∀ f ∈ (xanim_save_anim nameOf sample pose_bones write_tag_align
        frame_start frame_end framerate markers).frames,
        ∀ i, i < pose_bones.length →
          (xanim_save_anim nameOf sample pose_bones write_tag_align
            frame_start frame_end framerate markers).parts[i]?
              = (pose_bones[i]?).map (fun b => ⟨nameOf b⟩)
            ∧ f.parts[i]? = (pose_bones[i]?).map (sample f.frame))
    ∧ (write_tag_align = true →
        (xanim_save_anim nameOf sample pose_bones write_tag_align
          frame_start frame_end framerate markers).parts[pose_bones.length]?
            = some ⟨"TAG_ALIGN"⟩
          ∧ ∀ f ∈ (xanim_save_anim nameOf sample pose_bones write_tag_align
              frame_start frame_end framerate markers).frames,
            f.parts[pose_bones.length]?
              = some ⟨TAG_ALIGN_OFFSET, TAG_ALIGN_MATRIX⟩)
    ∧ ((xanim_save_anim nameOf sample pose_bones write_tag_align
        frame_start frame_end framerate markers).frames.map FrameL.frame
          ).Pairwise (· < ·) := by
  refine ⟨?_, ?_, ?_, ?_⟩
  · intro f hf
    simp only [xanim_save_anim, List.mem_map] at hf
    obtain ⟨j, -, rfl⟩ := hf
    simp only [buildFrame, xanim_save_anim, List.length_append,
      List.length_map]
    cases write_tag_align <;> simp
  · intro f hf i hi
    simp only [xanim_save_anim, List.mem_map] at hf
    obtain ⟨j, -, rfl⟩ := hf
    constructor
    · simp only [xanim_save_anim]
      rw [List.getElem?_append_left (by simpa using hi)]
      simp [List.getElem?_map]
    · simp only [buildFrame]
      rw [List.getElem?_append_left (by simpa using hi)]
      simp [List.getElem?_map]
  · intro hwta
    constructor
    · simp only [xanim_save_anim, hwta, if_true]
      rw [List.getElem?_append_right (by simp)]
      simp
    · intro f hf
      simp only [xanim_save_anim, List.mem_map] at hf
      obtain ⟨j, -, rfl⟩ := hf
      simp only [buildFrame, hwta, if_true]
      rw [List.getElem?_append_right (by simp)]
      simp
  · simp only [xanim_save_anim, List.map_map]
    rw [List.pairwise_map]
    refine (List.pairwise_lt_range _).imp ?_
    intro a b hab
    show frame_start + (a : Int) < frame_start + (b : Int)
    omega

/-- C8 witness: the concrete scenario — two bones, tag-align on, frames
0..1. -/
theorem xanim_frames_aligned_witness :
    (xanim_save_anim (fun b : String => b)
        (fun f b => ⟨(f, 0, 0), [[1, 0, 0], [0, 1, 0], [0, 0, 1]]⟩)
        ["root", "spine"] true 0 1 30 []).parts[2]? = some ⟨"TAG_ALIGN"⟩ := by
  exact ((xanim_frames_aligned (fun b : String => b)
    (fun f b => ⟨(f, 0, 0), [[1, 0, 0], [0, 1, 0], [0, 0, 1]]⟩)
    ["root", "spine"] true 0 1 30 []).2.2.1 rfl).1

/-- C10: on the model export path with an armature, the bone written at
index 0 always receives the identity 3x3 matrix and zero offset, regardless
of its actual bind matrix and head; every bone at index ≥ 1 receives its
transformed matrix `(armature_matrix @ matrix_local).to_3x3().transposed()`
and scaled world offset. -/
theorem export_bones_index_zero_identity (tbl_cosmetics : List String)
    (armature_matrix : Mat4) (global_scale : ℚ) (bones : List ArmatureBone) :
    (∀ b0, bones[0]? = some b0 →
      (export_bones tbl_cosmetics armature_matrix global_scale bones)[0]?
        = some (export_bone tbl_cosmetics (bones.map ArmatureBone.name)
            armature_matrix global_scale 0 b0)
      ∧ (export_bone tbl_cosmetics (bones.map ArmatureBone.name)
          armature_matrix global_scale 0 b0).matrix = 1
      ∧ (export_bone tbl_cosmetics (bones.map ArmatureBone.name)
          armature_matrix global_scale 0 b0).offset = (fun _ => 0))
    ∧ (∀ i b, 1 ≤ i → bones[i]? = some b →
      (export_bones tbl_cosmetics armature_matrix global_scale bones)[i]?
        = some (export_bone tbl_cosmetics (bones.map ArmatureBone.name)
            armature_matrix global_scale i b)
      ∧ (export_bone tbl_cosmetics (bones.map ArmatureBone.name)
          armature_matrix global_scale i b).matrix
        = (mat4ToMat3 (armature_matrix * b.matrix_local)).transpose
      ∧ (export_bone tbl_cosmetics (bones.map ArmatureBone.name)
          armature_matrix global_scale i b).offset
        = vecScale global_scale (affineApply armature_matrix b.head_local)) := by
  constructor
  · intro b0 hb0
    refine ⟨?_, ?_, ?_⟩
    · unfold export_bones
      rw [List.getElem?_map, List.getElem?_enum, hb0]
      rfl
    · simp [export_bone]
    · simp [export_bone]
  · intro i b hi hb
    refine ⟨?_, ?_, ?_⟩
    · unfold export_bones
      rw [List.getElem?_map, List.getElem?_enum, hb]
      rfl
    · show (export_bone _ _ _ _ _ _).matrix = _
      simp only [export_bone]
      rw [if_neg (show ¬ i = 0 by omega)]
    · show (export_bone _ _ _ _ _ _).offset = _
      simp only [export_bone]
      rw [if_neg (show ¬ i = 0 by omega)]

/-- C10 witness: a two-bone armature where bone 0 has a non-identity bind
matrix, yet is written with the identity matrix and zero offset. -/
theorem export_bones_index_zero_identity_witness :
    ((export_bones [] 1 2
        [⟨"root", none, Matrix.of ![![(2 : ℚ), 0, 0, 0], ![0, 2, 0, 0],
            ![0, 0, 2, 0], ![0, 0, 0, 1]], fun _ => 3⟩,
         ⟨"child", some "root", 1, fun _ => 5⟩])[0]?.map XModelBone.matrix)
      = some 1 := by
  have h := (export_bones_index_zero_identity [] 1 2
    [⟨"root", none, Matrix.of ![![(2 : ℚ), 0, 0, 0], ![0, 2, 0, 0],
        ![0, 0, 2, 0], ![0, 0, 0, 1]], fun _ => 3⟩,
     ⟨"child", some "root", 1, fun _ => 5⟩]).1
    ⟨"root", none, Matrix.of ![![(2 : ℚ), 0, 0, 0], ![0, 2, 0, 0],
        ![0, 0, 2, 0], ![0, 0, 0, 1]], fun _ => 3⟩ rfl
  rw [h.1]
  simp only [Option.map_some']
  rw [h.2.1]

/-- C6: a bone with no parent yields `rest_rotation = rest_location =
matrix_local`, for every square-root model, every flag combination and every
parent pose/rest matrix. -/
theorem get_mat_rest_root (sqrtQ : ℚ → ℚ) (pb : PoseBoneInput)
    (parent_pose_matrix parent_rest_matrix : Mat4)
    (h : pb.has_parent = false) :
    get_mat_rest sqrtQ pb parent_pose_matrix parent_rest_matrix
      = (pb.matrix_local, pb.matrix_local) := by
  unfold get_mat_rest
  rw [h]
  simp

/-- C6 witness: a concrete root bone. -/
theorem get_mat_rest_root_witness :
    get_mat_rest id ⟨false, 1, 1, ![0, 0, 0], 2, true, false, true⟩ 1 1
      = (1, 1) :=
  get_mat_rest_root id ⟨false, 1, 1, ![0, 0, 0], 2, true, false, true⟩ 1 1 rfl

/-- C7 counterexample: a bone with a parent, `use_local_location = True`,
both inheritance flags on, a non-identity 3x3 `bone.matrix` (diag 2,1,1) and
identity parent matrices.  The code computes `rest_location = mat_rotscale =
parent_pose @ mat_offs` (entry (0,0) = 2), while the claim's formula for
local-location storage gives `Translation(parent_pose @ offs.translation) @
rotation_part(parent_pose)` (entry (0,0) = 1): the claim attaches the
translation formula to the wrong `use_local_location` polarity. -/
theorem get_mat_rest_loc_counterexample :
    (get_mat_rest id
        ⟨true, 1, Matrix.diagonal ![2, 1, 1], ![0, 0, 0], 1, true, true, true⟩
        1 1).2 ≠
      claimed_rest_location
        ⟨true, 1, Matrix.diagonal ![2, 1, 1], ![0, 0, 0], 1, true, true, true⟩
        1
        (get_mat_rest id
          ⟨true, 1, Matrix.diagonal ![2, 1, 1], ![0, 0, 0], 1, true, true, true⟩
          1 1).1 := by
  intro h
  have h00 := congrFun (congrFun h 0) 0
  have hcode : (get_mat_rest id
      ⟨true, 1, Matrix.diagonal ![2, 1, 1], ![0, 0, 0], 1, true, true, true⟩
      1 1).2 0 0 = 2 := by
    simp only [get_mat_rest, Bool.not_true, Bool.and_self, Bool.or_self,
      if_false, Bool.false_eq_true, ite_false]
    rw [Matrix.one_mul]
    simp [boneOffsetMatrix, setTranslation, mat3ToMat4]
  have hclaim : claimed_rest_location
      ⟨true, 1, Matrix.diagonal ![2, 1, 1], ![0, 0, 0], 1, true, true, true⟩
      1
      (get_mat_rest id
        ⟨true, 1, Matrix.diagonal ![2, 1, 1], ![0, 0, 0], 1, true, true, true⟩
        1 1).1 0 0 = 1 := by
    simp only [claimed_rest_location, ite_true]
    rw [Matrix.mul_apply]
    rw [Fin.sum_univ_four]
    simp [matTranslation, setTranslation, mat3ToMat4, mat4ToMat3,
      Matrix.one_apply]
  rw [hcode, hclaim] at h00
  norm_num at h00

/-- C7 amended: for a bone with a parent, the location matrix is the
translation formula `Translation(parent_pose @ mat_offs.translation) @
rotation_part(parent_pose)` exactly when the bone does NOT use
local-location storage; when it does, the location matrix equals
`parent_pose @ mat_offs` in every flag combination — directly when either
inheritance flag is off, and as `rest_rotation` (which then reduces to the
same product) when both are inherited. -/
theorem get_mat_rest_location (sqrtQ : ℚ → ℚ) (pb : PoseBoneInput)
    (parent_pose_matrix parent_rest_matrix : Mat4)
    (h : pb.has_parent = true) :
    (get_mat_rest sqrtQ pb parent_pose_matrix parent_rest_matrix).2 =
      if pb.use_local_location then
        parent_pose_matrix * boneOffsetMatrix pb
      else
        matTranslation (affineApply parent_pose_matrix
            (translationOf (boneOffsetMatrix pb))) *
          mat3ToMat4 (mat4ToMat3 parent_pose_matrix) := by
  unfold get_mat_rest
  rw [h]
  cases hl : pb.use_local_location
  · simp [hl]
  · cases hr : pb.use_inherit_rotation <;>
      cases hs : pb.inherit_scale <;>
        simp [hl, hr, hs]

/-- C7 amended, witness: a concrete bone with a parent using local-location
storage. -/
theorem get_mat_rest_location_witness :
    (get_mat_rest id
        ⟨true, 1, Matrix.diagonal ![2, 1, 1], ![0, 0, 0], 1, true, true, true⟩
        1 1).2 =
      if (⟨true, 1, Matrix.diagonal ![2, 1, 1], ![0, 0, 0], 1, true, true,
          true⟩ : PoseBoneInput).use_local_location then
        1 * boneOffsetMatrix
          ⟨true, 1, Matrix.diagonal ![2, 1, 1], ![0, 0, 0], 1, true, true, true⟩
      else
        matTranslation (affineApply 1 (translationOf (boneOffsetMatrix
            ⟨true, 1, Matrix.diagonal ![2, 1, 1], ![0, 0, 0], 1, true, true,
              true⟩))) *
          mat3ToMat4 (mat4ToMat3 1) :=
  get_mat_rest_location id
    ⟨true, 1, Matrix.diagonal ![2, 1, 1], ![0, 0, 0], 1, true, true, true⟩
    1 1 rfl

end BlenderCoD
